import Mathlib

/-!
Verification of the parsing and normalization layer of the
Asha Sakhi nutrition / healthcare scheme recommendation service.

The Lean definitions below are a shallow embedding of the Python sources:
  * `src/api/nutrition.py`  — diet-plan parsing (strict JSON stage and the
    regex fallback stages) and region extraction;
  * `src/api/search.py`     — health-scheme record parsing;
  * `src/api/pdf_upload.py` — PDF ingestion control flow (modelled as an
    explicit event trace over an environment of collaborator outcomes);
  * `src/api/embedding_utils.py` — the batched `encode` entry point.

Python strings are modelled as Lean `String` / `List Char`; character
classes (`\s`, `\d`, `lower()`) are modelled at ASCII fidelity, which covers
every input under consideration.  Fallible Python code is modelled with
`Except`; `dict` values are association lists in insertion order with
last-wins lookup, matching CPython semantics.
-/

namespace Asha

/-- Python `\s` for the ASCII range (space, tab, newline, carriage return,
vertical tab, form feed), as used by `re` and `str.strip`/`str.split`. -/
def pyIsSpace (c : Char) : Bool :=
  c = ' ' || c = '\t' || c = '\n' || c = '\r' || c = '\x0b' || c = '\x0c'

/-- Python `\d` (ASCII digits). -/
def isDigitChar (c : Char) : Bool :=
  '0' ≤ c && c ≤ '9'

/-- Python `str.strip()` on a character list. -/
def pyStrip (cs : List Char) : List Char :=
  ((cs.dropWhile pyIsSpace).reverse.dropWhile pyIsSpace).reverse

/-- Does `n` occur as the leading run of `hay` (exact characters)? -/
def startsWithList : List Char → List Char → Bool
  | [], _ => true
  | _ :: _, [] => false
  | a :: as1, b :: bs => a = b && startsWithList as1 bs

/-- Case-insensitive version of `startsWithList` (models `re.IGNORECASE`
matching of a literal against the head of the input). -/
def ciStarts : List Char → List Char → Bool
  | [], _ => true
  | _ :: _, [] => false
  | a :: as1, b :: bs => a.toLower = b.toLower && ciStarts as1 bs

/-- Python `needle in hay` substring test on character lists. -/
def hasSub (n : List Char) : List Char → Bool
  | [] => n.isEmpty
  | c :: rest => startsWithList n (c :: rest) || hasSub n rest

/-- Python `str.split()` (split on whitespace runs, dropping empties);
`acc` is the current in-progress word, reversed. -/
def pyWordsAux : List Char → List Char → List (List Char)
  | [], acc => if acc.isEmpty then [] else [acc.reverse]
  | c :: rest, acc =>
    if pyIsSpace c then
      if acc.isEmpty then pyWordsAux rest [] else acc.reverse :: pyWordsAux rest []
    else pyWordsAux rest (c :: acc)

/-- Python `str.split()` with no separator argument. -/
def pyWords (cs : List Char) : List (List Char) :=
  pyWordsAux cs []

/-- Python `str.split(sep)` for a non-empty separator: cut at every
non-overlapping occurrence of `sep`, scanning left to right.  Fuel is the
input length plus one; every step consumes at least one character. -/
def pySplitAux (sep : List Char) : Nat → List Char → List Char → List (List Char)
  | _, acc, [] => [acc.reverse]
  | 0, acc, rest => [acc.reverse ++ rest]
  | fuel + 1, acc, c :: rest =>
    if startsWithList sep (c :: rest) then
      acc.reverse :: pySplitAux sep fuel [] ((c :: rest).drop sep.length)
    else
      pySplitAux sep fuel (c :: acc) rest

/-- Python `str.split(sep)`. -/
def pySplit (sep cs : List Char) : List (List Char) :=
  pySplitAux sep (cs.length + 1) [] cs

/-!
JSON values and a model of `json.loads`

`src/api/nutrition.py` decodes the extracted diet-plan text with
`json.loads` (line 131).  We model JSON documents with the `Json` type and
the strict decoder with `jsonParse`.  Numbers are kept as their source
text (`num raw`): no claim depends on numeric values.  Object fields are
kept in parse order, duplicates included; Python dict lookup on the decoded
object is then last-binding-wins (`lookupLast`).
-/

inductive Json where
  | null : Json
  | bool : Bool → Json
  | num : String → Json
  | str : String → Json
  | arr : List Json → Json
  | obj : List (String × Json) → Json

/-- Is this value a JSON object (a Python `dict` after decoding)? -/
def Json.isObj : Json → Bool
  | .obj _ => true
  | _ => false

/-- Is this value a JSON string? -/
def Json.isStr : Json → Bool
  | .str _ => true
  | _ => false

/-- Python `dict` lookup for a dict built from a key/value sequence:
the last binding of a duplicated key wins. -/
def lookupLast (fields : List (String × Json)) (k : String) : Option Json :=
  fields.foldl (fun acc kv => if kv.1 = k then some kv.2 else acc) none

/-- JSON insignificant whitespace (RFC 8259, as accepted by `json.loads`). -/
def jsonWs (c : Char) : Bool :=
  c = ' ' || c = '\t' || c = '\n' || c = '\r'

/-- Skip insignificant whitespace. -/
def skipWs (cs : List Char) : List Char :=
  cs.dropWhile jsonWs

/-- Value of one hex digit, or `none`. -/
def hexVal (c : Char) : Option Nat :=
  if '0' ≤ c && c ≤ '9' then some (c.toNat - 48)
  else if 'a' ≤ c && c ≤ 'f' then some (c.toNat - 87)
  else if 'A' ≤ c && c ≤ 'F' then some (c.toNat - 55)
  else none

/-- State of the JSON string-literal scanner: plain characters, just after a
backslash, or inside a `\uXXXX` escape with `need` digits still expected. -/
inductive StrMode where
  | norm : StrMode
  | esc : StrMode
  | hex : Nat → Nat → StrMode

/-- Scan a JSON string literal body (the opening quote already consumed),
returning the decoded characters and the input after the closing quote.
Raw control characters are rejected (`json.loads` is strict by default);
`\uXXXX` escapes denoting surrogate halves are rejected (the inputs in this
development never contain surrogate escapes). -/
def strBody : StrMode → List Char → Option (List Char × List Char)
  | _, [] => none
  | .norm, c :: rest =>
    if c = '"' then some ([], rest)
    else if c = '\\' then strBody .esc rest
    else if c.toNat < 32 then none
    else (strBody .norm rest).map (fun p => (c :: p.1, p.2))
  | .esc, c :: rest =>
    if c = '"' then (strBody .norm rest).map (fun p => ('"' :: p.1, p.2))
    else if c = '\\' then (strBody .norm rest).map (fun p => ('\\' :: p.1, p.2))
    else if c = '/' then (strBody .norm rest).map (fun p => ('/' :: p.1, p.2))
    else if c = 'b' then (strBody .norm rest).map (fun p => ('\x08' :: p.1, p.2))
    else if c = 'f' then (strBody .norm rest).map (fun p => ('\x0c' :: p.1, p.2))
    else if c = 'n' then (strBody .norm rest).map (fun p => ('\n' :: p.1, p.2))
    else if c = 'r' then (strBody .norm rest).map (fun p => ('\r' :: p.1, p.2))
    else if c = 't' then (strBody .norm rest).map (fun p => ('\t' :: p.1, p.2))
    else if c = 'u' then strBody (.hex 4 0) rest
    else none
  | .hex need acc, c :: rest =>
    match hexVal c with
    | none => none
    | some d =>
      let acc2 := acc * 16 + d
      if need ≤ 1 then
        if 0xD800 ≤ acc2 && acc2 ≤ 0xDFFF then none
        else (strBody .norm rest).map (fun p => (Char.ofNat acc2 :: p.1, p.2))
      else strBody (.hex (need - 1) acc2) rest

/-- Optional fraction part of a JSON number (`.` followed by one or more
digits, or nothing). -/
def parseFracPart (cs : List Char) : Option (List Char × List Char) :=
  match cs with
  | '.' :: r =>
    let fs := r.takeWhile isDigitChar
    if fs.isEmpty then none else some ('.' :: fs, r.drop fs.length)
  | _ => some ([], cs)

/-- Optional exponent part of a JSON number (`e`/`E`, optional sign, one or
more digits, or nothing). -/
def parseExpPart (cs : List Char) : Option (List Char × List Char) :=
  match cs with
  | e :: r =>
    if e = 'e' || e = 'E' then
      let (es, r2) :=
        match r with
        | s :: r3 => if s = '+' || s = '-' then ([e, s], r3) else ([e], r)
        | [] => ([e], r)
      let xs := r2.takeWhile isDigitChar
      if xs.isEmpty then none else some (es ++ xs, r2.drop xs.length)
    else some ([], cs)
  | [] => some ([], cs)

/-- Parse a JSON number token (RFC 8259 grammar: `-? int frac? exp?`, with
no leading zeros); the token text is kept verbatim. -/
def parseNum (cs : List Char) : Option (Json × List Char) :=
  let (sign, cs1) :=
    match cs with
    | '-' :: r => (['-'], r)
    | _ => (([] : List Char), cs)
  match cs1 with
  | [] => none
  | d :: _ =>
    if !isDigitChar d then none
    else
      let ds := if d = '0' then ['0'] else cs1.takeWhile isDigitChar
      let cs2 := cs1.drop ds.length
      match parseFracPart cs2 with
      | none => none
      | some (frac, cs3) =>
        match parseExpPart cs3 with
        | none => none
        | some (ex, cs4) => some (.num (String.mk (sign ++ ds ++ frac ++ ex)), cs4)

mutual

/-- Parse one JSON value (leading whitespace allowed), fuel-bounded. -/
def parseVal : Nat → List Char → Option (Json × List Char)
  | 0, _ => none
  | f + 1, cs =>
    match skipWs cs with
    | [] => none
    | '\x7b' :: rest => parseObjBody f rest
    | '[' :: rest => parseArrBody f rest
    | '"' :: rest => (strBody .norm rest).map (fun p => (.str (String.mk p.1), p.2))
    | 't' :: rest =>
      if startsWithList ['r', 'u', 'e'] rest then some (.bool true, rest.drop 3) else none
    | 'f' :: rest =>
      if startsWithList ['a', 'l', 's', 'e'] rest then some (.bool false, rest.drop 4) else none
    | 'n' :: rest =>
      if startsWithList ['u', 'l', 'l'] rest then some (.null, rest.drop 3) else none
    | c :: rest => parseNum (c :: rest)

/-- Parse an object body (the `{` already consumed). -/
def parseObjBody : Nat → List Char → Option (Json × List Char)
  | 0, _ => none
  | f + 1, cs =>
    match skipWs cs with
    | '\x7d' :: rest => some (.obj [], rest)
    | other => parseMembers f other []

/-- Parse the members of a non-empty object body. -/
def parseMembers : Nat → List Char → List (String × Json) → Option (Json × List Char)
  | 0, _, _ => none
  | f + 1, cs, acc =>
    match skipWs cs with
    | '"' :: rest =>
      match strBody .norm rest with
      | none => none
      | some (kcs, r1) =>
        match skipWs r1 with
        | ':' :: r2 =>
          match parseVal f r2 with
          | none => none
          | some (v, r3) =>
            match skipWs r3 with
            | ',' :: r4 => parseMembers f r4 (acc ++ [(String.mk kcs, v)])
            | '\x7d' :: r4 => some (.obj (acc ++ [(String.mk kcs, v)]), r4)
            | _ => none
        | _ => none
    | _ => none

/-- Parse an array body (the `[` already consumed). -/
def parseArrBody : Nat → List Char → Option (Json × List Char)
  | 0, _ => none
  | f + 1, cs =>
    match skipWs cs with
    | ']' :: rest => some (.arr [], rest)
    | other => parseItems f other []

/-- Parse the items of a non-empty array body. -/
def parseItems : Nat → List Char → List Json → Option (Json × List Char)
  | 0, _, _ => none
  | f + 1, cs, acc =>
    match parseVal f cs with
    | none => none
    | some (v, r1) =>
      match skipWs r1 with
      | ',' :: r2 => parseItems f r2 (acc ++ [v])
      | ']' :: r2 => some (.arr (acc ++ [v]), r2)
      | _ => none

end

/-- Model of `json.loads`: parse one value, then require only trailing
whitespace.  `none` models `json.JSONDecodeError`.  The fuel `3 * length + 3`
dominates the parser's fuel consumption (at most three ticks per consumed
character on any path). -/
def jsonParse (s : String) : Option Json :=
  match parseVal (3 * s.length + 3) s.data with
  | some (v, rest) => if (skipWs rest).isEmpty then some v else none
  | none => none

/-!
Diet-plan parsing (`src/api/nutrition.py`, lines 129–218)

`dietParse` models `get_nutrition_recommendation` from line 129 on, taking
the extracted `diet_plan_text` and the computed `region` as inputs:
  * Stage 1 (lines 130–159): `json.loads`, then the day1..day7 restructuring
    loop; a `TypeError`/`AttributeError` raised there is not caught (the
    `except` clause at line 161 catches only `json.JSONDecodeError`, and the
    outer handlers re-raise), modelled as `Except.error`.
  * Stage 2/3 (lines 161–214): the regex fallback over the three day-block
    patterns, then the all-default fill, returning with the `note` field.
-/

/-- Python exceptions that can escape the restructuring loop. -/
inductive PyErr where
  | typeError : PyErr
  | attributeError : PyErr
deriving DecidableEq

/-- One day of the structured response: the dict literal with exactly the
five meal keys built at lines 139–145 / 148–154 / 177–183.  On the strict
JSON path values are whatever the decoded object held (line 149–153 uses
`dict.get`, so a present `null` or number passes through); the fallback
path only ever stores strings. -/
structure DayEntry where
  breakfast : Json
  morning_snack : Json
  lunch : Json
  evening_snack : Json
  dinner : Json

/-- The all-default day (`"Not specified"` in every slot). -/
def defaultDay : DayEntry :=
  ⟨.str "Not specified", .str "Not specified", .str "Not specified",
   .str "Not specified", .str "Not specified"⟩

/-- The seven day keys processed by the restructuring loop (line 135). -/
def dayKeys : List String :=
  ["day1", "day2", "day3", "day4", "day5", "day6", "day7"]

/-- Python membership characters: does the string list `xs` (a decoded JSON
array) contain the string `k` under Python `==`?  A Python string compares
equal only to an equal string. -/
def arrHasStr (k : String) (xs : List Json) : Bool :=
  xs.any (fun v => match v with | .str t => t = k | _ => false)

/-- Model of `day_key not in diet_plan_json` followed by
`diet_plan_json[day_key]` (lines 138 and 147) for an arbitrary decoded
value: `in` on a dict is key membership, on a string a substring test, on a
list element equality; on numbers/booleans/`None` it raises `TypeError`.
String and list indexing by a string key raises `TypeError`. -/
def dayLookupStep (j : Json) (dk : String) : Except PyErr (Option Json) :=
  match j with
  | .obj fields => .ok (lookupLast fields dk)
  | .str s => if hasSub dk.data s.data then .error .typeError else .ok none
  | .arr xs => if arrHasStr dk xs then .error .typeError else .ok none
  | _ => .error .typeError

/-- `day_data.get(key, "Not specified")` (lines 149–153): Python `dict.get`
returns the stored value whenever the key is present — even when that value
is `null` — and the default otherwise. -/
def getMeal (dd : List (String × Json)) (k : String) : Json :=
  (lookupLast dd k).getD (.str "Not specified")

/-- The Stage 1 restructuring loop (lines 135–154) over the listed day
keys.  `day_data.get` on a non-dict value raises `AttributeError`. -/
def restructureDays (j : Json) : List String → Except PyErr (List (String × DayEntry))
  | [] => .ok []
  | dk :: rest =>
    match dayLookupStep j dk with
    | .error e => .error e
    | .ok none =>
      match restructureDays j rest with
      | .error e => .error e
      | .ok out => .ok ((dk, defaultDay) :: out)
    | .ok (some (.obj dd)) =>
      match restructureDays j rest with
      | .error e => .error e
      | .ok out =>
        .ok ((dk, ⟨getMeal dd "breakfast", getMeal dd "morning_snack", getMeal dd "lunch",
                   getMeal dd "evening_snack", getMeal dd "dinner"⟩) :: out)
    | .ok (some _) => .error .attributeError

/-!
Stage 2: the regex fallback (lines 166–198)

The three day patterns are
  `Day (\d+)[:\s]*(.*?)(?=Day \d+|$)`,
  `day(\d+)[:\s]*(.*?)(?=day\d+|$)`,
  `DAY (\d+)[:\s]*(.*?)(?=DAY \d+|$)`,
all compiled with `re.DOTALL | re.IGNORECASE`.  Under `IGNORECASE` the
first and third are the same regex; they differ from the second only in the
mandatory space between the day word and the digits.  Because the
alternative `$` in the lookahead always succeeds at the end of input, the
greedy `[:\s]*` run never backtracks and the lazy `(.*?)` stops at the
first position where the day lookahead holds or at `$` (end of input, or
just before a final newline — Python `$` without `re.MULTILINE`).
-/

/-- Does the day-block lookahead (`Day \d+` resp. `day\d+`, case
insensitive) hold at this position? -/
def dayStop (space : Bool) (cs : List Char) : Bool :=
  let w : List Char := if space then ['d', 'a', 'y', ' '] else ['d', 'a', 'y']
  ciStarts w cs &&
    (match cs.drop w.length with
     | c :: _ => isDigitChar c
     | [] => false)

/-- Lazy `(.*?)(?=…|$)` content: consume characters until `stop` holds at
the current position, until the input ends, or until only a final newline
remains.  Returns the content and the rest (the lookahead position, where
scanning for the next non-overlapping match resumes). -/
def lazySplit (stop : List Char → Bool) : List Char → List Char × List Char
  | [] => ([], [])
  | c :: rest =>
    if stop (c :: rest) || (c = '\n' && rest.isEmpty) then ([], c :: rest)
    else
      let p := lazySplit stop rest
      (c :: p.1, p.2)

/-- Try to match one day-block pattern at the head of the input, returning
the digit group, the content group and the input at the match end. -/
def matchDayAt (space : Bool) (cs : List Char) : Option (String × List Char × List Char) :=
  let w : List Char := if space then ['d', 'a', 'y', ' '] else ['d', 'a', 'y']
  if ciStarts w cs then
    let r1 := cs.drop w.length
    let ds := r1.takeWhile isDigitChar
    if ds.isEmpty then none
    else
      let r2 := r1.drop ds.length
      let r3 := r2.dropWhile (fun c => c = ':' || pyIsSpace c)
      let p := lazySplit (dayStop space) r3
      some (String.mk ds, p.1, p.2)
  else none

/-- `re.findall` for a day-block pattern: scan left to right, emitting each
leftmost non-overlapping match.  Each step consumes at least one character,
so fuel `length + 1` never runs out. -/
def dayFindallAux (space : Bool) : Nat → List Char → List (String × List Char)
  | 0, _ => []
  | _ + 1, [] => []
  | f + 1, c :: rest =>
    match matchDayAt space (c :: rest) with
    | some (n, content, after) => (n, content) :: dayFindallAux space f after
    | none => dayFindallAux space f rest

/-- All matches of one day-block pattern variant. -/
def dayFindall (space : Bool) (cs : List Char) : List (String × List Char) :=
  dayFindallAux space (cs.length + 1) cs

/-- `re.search` for a meal pattern `label[:\s]*(.*?)(?=stop₁|…|$)` inside a
day block: the pattern matches at the first case-insensitive occurrence of
the label (the tail can never fail, as `$` is always reachable). -/
def searchLabel (label : List Char) (stops : List (List Char)) : List Char → Option (List Char)
  | [] => none
  | c :: rest =>
    if ciStarts label (c :: rest) then
      let r1 := (c :: rest).drop label.length
      let r2 := r1.dropWhile (fun ch => ch = ':' || pyIsSpace ch)
      some (lazySplit (fun s => stops.any (fun w => ciStarts w s)) r2).1
    else searchLabel label stops rest

/-- One meal slot: the found group, stripped, or the default (lines
185–196). -/
def mealSlot (label : String) (stops : List String) (content : List Char) : Json :=
  match searchLabel label.data (stops.map String.data) content with
  | some g => .str (String.mk (pyStrip g))
  | none => .str "Not specified"

/-- Build the day dict for one matched day block (lines 177–196), with the
meal patterns of the source's `meal_patterns` table. -/
def buildDay (content : List Char) : DayEntry :=
  ⟨mealSlot "breakfast" ["lunch", "dinner", "snack"] content,
   mealSlot "morning snack" ["lunch", "dinner", "breakfast", "evening"] content,
   mealSlot "lunch" ["breakfast", "dinner", "snack"] content,
   mealSlot "evening snack" ["breakfast", "lunch", "dinner", "morning"] content,
   mealSlot "dinner" ["breakfast", "lunch", "snack"] content⟩

/-- Python dict assignment `d[k] = v`: overwrite in place when the key
exists, append otherwise. -/
def dictInsert (m : List (String × DayEntry)) (k : String) (v : DayEntry) :
    List (String × DayEntry) :=
  if m.any (fun kv => kv.1 = k) then m.map (fun kv => if kv.1 = k then (k, v) else kv)
  else m ++ [(k, v)]

/-- Write the matches of one pattern into `structured_response`
(lines 174–198). -/
def applyDayMatches (m : List (String × DayEntry)) (found : List (String × List Char)) :
    List (String × DayEntry) :=
  found.foldl (fun acc nm => dictInsert acc ("day" ++ nm.1) (buildDay nm.2)) m

/-- All seven days fully defaulted (lines 200–208). -/
def defaultPlanEntries : List (String × DayEntry) :=
  dayKeys.map (fun k => (k, defaultDay))

/-- Stage 2/3 of the fallback (lines 164–208): all three patterns are
applied in sequence — the loop at line 172 has no `break`, so a later
pattern's matches are written over or next to an earlier pattern's — and
if nothing matched, the seven default days are filled in.  Under
`IGNORECASE` the third pattern is the same regex as the first. -/
def stage2 (cs : List Char) : List (String × DayEntry) :=
  let m1 := applyDayMatches [] (dayFindall true cs)
  let m2 := applyDayMatches m1 (dayFindall false cs)
  let m3 := applyDayMatches m2 (dayFindall true cs)
  if m3.isEmpty then defaultPlanEntries else m3

/-- The `note` string attached on the fallback path (line 213). -/
def noteMsg : String :=
  "The diet plan could not be parsed as JSON and was manually structured."

/-- The value returned by `get_nutrition_recommendation` (lines 156–159 and
210–214). -/
structure DietResult where
  diet_plan : List (String × DayEntry)
  region : String
  note : Option String

/-- Model of `get_nutrition_recommendation` from line 129 on, on the
extracted `diet_plan_text` and the computed region. -/
def dietParse (text region : String) : Except PyErr DietResult :=
  match jsonParse text with
  | some j =>
    match restructureDays j dayKeys with
    | .error e => .error e
    | .ok entries => .ok ⟨entries, region, none⟩
  | none => .ok ⟨stage2 text.data, region, some noteMsg⟩

/-!
Region extraction (`src/api/nutrition.py`, lines 50–63)
-/

/-- The fixed keyword list of line 50, in source order. -/
def regionKeywords : List String :=
  ["region", "state", "city", "district", "area", "from", "lives in"]

/-- One-or-two-word region string from the whitespace words of the part
after the keyword. -/
def takeRegionWords (ws : List (List Char)) : Option String :=
  match ws with
  | [] => none
  | w0 :: rest =>
    match rest with
    | [] => some (String.mk w0)
    | w1 :: _ => some (String.mk (w0 ++ ' ' :: w1))

/-- The keyword loop of lines 53–63 on the lowered query: the first keyword
(in list order) that occurs as a substring *and* yields at least one word
after the split assigns the region and breaks; otherwise iteration
continues and the default stands. -/
def regionLoop : List String → List Char → String
  | [], _ => "unknown"
  | k :: ks, q =>
    if hasSub k.data q then
      let parts := pySplit k.data q
      if 1 < parts.length then
        match takeRegionWords (pyWords (pyStrip ((parts.get? 1).getD []))) with
        | some r => r
        | none => regionLoop ks q
      else regionLoop ks q
    else regionLoop ks q

/-- Model of the region extraction (lines 50–63): `query.lower()` is
scanned for the keywords; `parts[1]` of `query.lower().split(keyword)` is
the text between the first and second occurrence of the keyword.
(`str.lower` is modelled per character at ASCII fidelity.) -/
def regionFromQuery (query : String) : String :=
  regionLoop regionKeywords (query.data.map Char.toLower)

/-!
Schema-valid diet plans and their JSON serialization

For the Stage 1 round-trip claim we fix the schema-valid plans: seven day
objects, each mapping exactly the five meal keys to strings.  `serPlan`
is their standard JSON serialization (object/member layout as emitted by
`json.dumps` with its default `", "` / `": "` separators; string escaping
uses the standard short escapes plus `\u00XX` for the remaining control
characters, and leaves other characters — including non-ASCII — verbatim,
which `json.loads` accepts).
-/

/-- Lower-case hex digit. -/
def hexDig (n : Nat) : Char :=
  if n < 10 then Char.ofNat (48 + n) else Char.ofNat (87 + n)

/-- JSON string escaping of one character. -/
def escChar (c : Char) : List Char :=
  if c = '"' then ['\\', '"']
  else if c = '\\' then ['\\', '\\']
  else if c = '\n' then ['\\', 'n']
  else if c = '\r' then ['\\', 'r']
  else if c = '\t' then ['\\', 't']
  else if c.toNat = 8 then ['\\', 'b']
  else if c.toNat = 12 then ['\\', 'f']
  else if c.toNat < 32 then ['\\', 'u', '0', '0', hexDig (c.toNat / 16), hexDig (c.toNat % 16)]
  else [c]

/-- JSON string escaping of a character list. -/
def escChars (cs : List Char) : List Char :=
  (cs.map escChar).flatten

/-- A JSON string literal. -/
def serStr (s : String) : List Char :=
  '"' :: escChars s.data ++ ['"']

/-- One day of a schema-valid plan: the five meal slots, all strings. -/
structure DayMeals where
  breakfast : String
  morning_snack : String
  lunch : String
  evening_snack : String
  dinner : String

/-- A schema-valid 7-day diet plan. -/
structure WeekPlan where
  day1 : DayMeals
  day2 : DayMeals
  day3 : DayMeals
  day4 : DayMeals
  day5 : DayMeals
  day6 : DayMeals
  day7 : DayMeals

/-- The five meal fields of a day, in schema order. -/
def mealFields (d : DayMeals) : List (String × String) :=
  [("breakfast", d.breakfast), ("morning_snack", d.morning_snack), ("lunch", d.lunch),
   ("evening_snack", d.evening_snack), ("dinner", d.dinner)]

/-- The JSON object of one day. -/
def mealsJson (d : DayMeals) : Json :=
  .obj ((mealFields d).map (fun kv => (kv.1, .str kv.2)))

/-- The seven labelled days of a plan, in schema order. -/
def planDays (p : WeekPlan) : List (String × DayMeals) :=
  [("day1", p.day1), ("day2", p.day2), ("day3", p.day3), ("day4", p.day4),
   ("day5", p.day5), ("day6", p.day6), ("day7", p.day7)]

/-- The JSON document of a schema-valid plan. -/
def planJson (p : WeekPlan) : Json :=
  .obj ((planDays p).map (fun kv => (kv.1, mealsJson kv.2)))

/-- One serialized `"key": "value"` member. -/
def serFieldEntry (kv : String × String) : List Char :=
  serStr kv.1 ++ ':' :: ' ' :: serStr kv.2

/-- Comma-separated serialized members of a flat string object. -/
def serFieldsSep : List (String × String) → List Char
  | [] => []
  | [kv] => serFieldEntry kv
  | kv :: rest => serFieldEntry kv ++ ',' :: ' ' :: serFieldsSep rest

/-- A serialized flat string-to-string object. -/
def serFlatObj (fields : List (String × String)) : List Char :=
  '\x7b' :: serFieldsSep fields ++ ['\x7d']

/-- One serialized `"dayN": {…}` member. -/
def serDayEntry (kv : String × DayMeals) : List Char :=
  serStr kv.1 ++ ':' :: ' ' :: serFlatObj (mealFields kv.2)

/-- Comma-separated serialized day members. -/
def serDaysSep : List (String × DayMeals) → List Char
  | [] => []
  | [kv] => serDayEntry kv
  | kv :: rest => serDayEntry kv ++ ',' :: ' ' :: serDaysSep rest

/-- The serialized characters of a schema-valid plan. -/
def serPlan (p : WeekPlan) : List Char :=
  '\x7b' :: serDaysSep (planDays p) ++ ['\x7d']

/-- The JSON serialization of a schema-valid plan. -/
def serializePlan (p : WeekPlan) : String :=
  String.mk (serPlan p)

/-- The structured response Stage 1 should rebuild from a schema-valid
plan: every slot passed through unchanged as a string. -/
def strEntry (d : DayMeals) : DayEntry :=
  ⟨.str d.breakfast, .str d.morning_snack, .str d.lunch, .str d.evening_snack, .str d.dinner⟩

/-- The expected `structured_response` for a schema-valid plan. -/
def planEntries (p : WeekPlan) : List (String × DayEntry) :=
  (planDays p).map (fun kv => (kv.1, strEntry kv.2))

/-!
Health-scheme record parsing (`src/api/search.py`, lines 59–98)

`parse_health_scheme` runs, for each of its seven labelled fields, the
regex `Label:\s*([^\n]+)` with `re.IGNORECASE` over the whole content.
`re.search` semantics: the match starts at the leftmost position where the
label occurs case-insensitively *and* the tail can complete; `\s*` is
greedy, and when only whitespace follows it backtracks so that `[^\n]+`
can still take one trailing non-newline whitespace character.
-/

/-- The `\s*([^\n]+)` tail of a field regex, at the position just after
the label: greedy whitespace, then the longest non-empty run of
non-newline characters, with the backtracking described above.  `none`
means the tail cannot match here. -/
def groupAfter (rest : List Char) : Option (List Char) :=
  let tail := rest.dropWhile pyIsSpace
  if tail.isEmpty then
    match ((rest.takeWhile pyIsSpace).reverse.dropWhile (fun c => c = '\n')) with
    | [] => none
    | c :: _ => some [c]
  else some (tail.takeWhile (fun c => c ≠ '\n'))

/-- `re.search` of `label\s*([^\n]+)` (case-insensitive): first position
where the label matches and the tail completes; returns group 1. -/
def labelSearch (label : List Char) : List Char → Option (List Char)
  | [] => none
  | c :: rest =>
    match (if ciStarts label (c :: rest) then groupAfter ((c :: rest).drop label.length)
           else none) with
    | some g => some g
    | none => labelSearch label rest

/-- The seven structured fields and their labels (lines 78–86), in source
order. -/
def schemeLabels : List (String × String) :=
  [("state", "State:"), ("description", "Description:"), ("eligibility", "Eligibility:"),
   ("how_to_apply", "How to Apply:"), ("benefits", "Benefits:"),
   ("documents_required", "Documents Required:"), ("contact_info", "Contact:")]

/-- The extracted (trimmed) value of one field, `""` when the regex does
not match (lines 88–91). -/
def schemeFieldValue (label : String) (content : String) : String :=
  match labelSearch label.data content.data with
  | some g => String.mk (pyStrip g)
  | none => ""

/-- `content.strip().split('\n')[0].strip()` (lines 74–76): the scheme
name from the first line. -/
def schemeName (content : String) : String :=
  String.mk (pyStrip ((pyStrip content.data).takeWhile (fun c => c ≠ '\n')))

/-- The seven field values extracted from a content string. -/
def schemeFields (content : String) : List (String × String) :=
  schemeLabels.map (fun kl => (kl.1, schemeFieldValue kl.2 content))

/-- Model of `parse_health_scheme`: the dict in insertion order —
`scheme_name`, the seven fields, then `raw_content` when every field
(scheme name excluded) extracted empty (lines 93–94) — with all
empty-valued keys dropped (line 96). -/
def parseHealthScheme (content : String) : List (String × String) :=
  let fields := schemeFields content
  let allEmpty := fields.all (fun kv => kv.2 = "")
  let data := ("scheme_name", schemeName content) :: fields ++
    (if allEmpty then [("raw_content", content)] else [])
  data.filter (fun kv => kv.2 ≠ "")

/-!
PDF ingestion (`src/api/pdf_upload.py`)

`process_pdf` is modelled as a straight-line function over an environment
of collaborator outcomes, returning the result, the trace of vector-store
and temporary-file events in program order, and whether the temporary
file is still on disk when the function exits.  Key control-flow facts of
the source: the missing-collection `create_collection` happens at lines
44–49, *before* the PDF is loaded; the temporary file is created by
`tempfile.NamedTemporaryFile(delete=False)` at line 57 and the upload is
read and written inside that `with` block (lines 58–60), while the
`try`/`finally` that deletes the file (lines 63, 136–140) only begins
after the `with` block — so an exception raised by `file.read()` or
`temp_file.write()` escapes before the cleanup is armed.
-/

/-- Observable vector-store / filesystem events of one `process_pdf` run. -/
inductive PdfEvent where
  | createCollection : String → PdfEvent
  | upsertPoints : String → Nat → PdfEvent
  | tempCreated : PdfEvent
  | tempDeleted : PdfEvent
deriving DecidableEq

/-- The dict returned by `process_pdf` on its non-raising paths. -/
structure PdfResp where
  status : String
  message : String
  chunks_count : Option Nat
deriving DecidableEq

/-- Exceptions that `process_pdf` can propagate, by raising site. -/
inductive PdfErr where
  | missingEnv : PdfErr
  | modelError : PdfErr
  | readError : PdfErr
  | writeError : PdfErr
  | loadError : PdfErr
  | upsertError : PdfErr
deriving DecidableEq

/-- Collaborator outcomes for one run: environment variables, the existing
collections, and whether each fallible step succeeds.  Pages are reduced
to their text content and the splitter to its text-level behaviour; chunk
payload metadata does not affect any claim. -/
structure PdfEnv where
  qdrantUrl : Option String
  qdrantApiKey : Option String
  collections : List String
  modelLoadFails : Bool
  readFails : Bool
  writeFails : Bool
  loadResult : Except Unit (List String)
  splitText : String → List String
  upsertFails : Bool

/-- Result of one run: outcome, event trace, and whether the temporary
file is left behind. -/
structure PdfOutcome where
  result : Except PdfErr PdfResp
  events : List PdfEvent
  tempLeft : Bool

/-- Python truthiness of `not x` for an optional string (line 26): both
an unset variable and an empty string are falsy. -/
def pyFalsy (o : Option String) : Bool :=
  o = none || o = some ""

/-- Model of `process_pdf`. -/
def processPdf (env : PdfEnv) (filename collectionName : String) : PdfOutcome :=
  if pyFalsy env.qdrantUrl || pyFalsy env.qdrantApiKey then
    ⟨.error .missingEnv, [], false⟩
  else
    let ev0 := if env.collections.contains collectionName then []
               else [PdfEvent.createCollection collectionName]
    if env.modelLoadFails then ⟨.error .modelError, ev0, false⟩
    else
      let ev1 := ev0 ++ [PdfEvent.tempCreated]
      if env.readFails then ⟨.error .readError, ev1, true⟩
      else if env.writeFails then ⟨.error .writeError, ev1, true⟩
      else
        match env.loadResult with
        | .error _ => ⟨.error .loadError, ev1 ++ [PdfEvent.tempDeleted], false⟩
        | .ok pages =>
          if pages.isEmpty then
            ⟨.ok ⟨"warning", "No content found in " ++ filename ++ ".", none⟩,
             ev1 ++ [PdfEvent.tempDeleted], false⟩
          else
            let chunks := (pages.map env.splitText).flatten
            if chunks.isEmpty then
              ⟨.ok ⟨"warning", "No text chunks extracted from " ++ filename ++ ".", none⟩,
               ev1 ++ [PdfEvent.tempDeleted], false⟩
            else if env.upsertFails then
              ⟨.error .upsertError, ev1 ++ [PdfEvent.tempDeleted], false⟩
            else
              ⟨.ok ⟨"success",
                    "Uploaded " ++ toString chunks.length ++ " chunks from " ++ filename ++ ".",
                    some chunks.length⟩,
               ev1 ++ [PdfEvent.upsertPoints collectionName chunks.length, PdfEvent.tempDeleted],
               false⟩

/-!
Batched encoding (`src/api/embedding_utils.py`, lines 47–85)

`EmbeddingModel.encode` is modelled with the per-batch pipeline
(tokenizer, model, pooling, normalization) abstracted into `runBatch`;
the second component of the result records every batch handed to the
tokenizer/model, so "the model was never invoked" is "that list is
empty".
-/

/-- Exception from `range(0, n, 0)` when a zero batch size reaches the
loop. -/
inductive EncErr where
  | valueError : EncErr
deriving DecidableEq

/-- The batching loop of lines 60–79: slices of `batchSize = bsPred + 1`
sentences are fed to the model in order and the outputs concatenated. -/
def encodeBatchesAux {V : Type} (runBatch : List String → List V) (bsPred : Nat) :
    List String → List V × List (List String)
  | [] => ([], [])
  | s :: rest =>
    let batch := (s :: rest).take (bsPred + 1)
    let p := encodeBatchesAux runBatch bsPred ((s :: rest).drop (bsPred + 1))
    (runBatch batch ++ p.1, batch :: p.2)
  termination_by l => l.length
  decreasing_by simp; omega

/-- Model of `EmbeddingModel.encode`: the empty-input guard of lines
51–53, then the batching loop. -/
def encodeModel {V : Type} (runBatch : List String → List V) (sentences : List String)
    (batchSize : Nat) : Except EncErr (List V × List (List String)) :=
  if sentences.isEmpty then .ok ([], [])
  else if batchSize = 0 then .error .valueError
  else .ok (encodeBatchesAux runBatch (batchSize - 1) sentences)

/-!
Auxiliary predicates and fixtures used by the claim statements
-/

/-- Are all five meal slots of a day entry JSON strings? -/
def DayEntry.allStr (e : DayEntry) : Bool :=
  e.breakfast.isStr && e.morning_snack.isStr && e.lunch.isStr &&
    e.evening_snack.isStr && e.dinner.isStr

/-- The `note` field of a diet-plan result, `none` when the call raised. -/
def resultNote : Except PyErr DietResult → Option String
  | .ok r => r.note
  | .error _ => none

/-- Modelled from the spec claim (not from the source): a Stage 2 that
tries the three day-pattern variants in order and stops after the first
variant that yields any matches (the third variant being the same regex as
the first under `IGNORECASE`), then applies the Stage 3 default fill.  It
is compared against the source-faithful `stage2`. -/
def stage2StopFirst (cs : List Char) : List (String × DayEntry) :=
  let found :=
    if (dayFindall true cs).isEmpty = false then dayFindall true cs
    else dayFindall false cs
  let m := applyDayMatches [] found
  if m.isEmpty then defaultPlanEntries else m

/-- Is this event a vector-store upsert? -/
def PdfEvent.isUpsert : PdfEvent → Bool
  | .upsertPoints _ _ => true
  | _ => false

/-- Did the run return a warning whose message mentions the filename —
or raise (in which case the zero-page claim is vacuous)? -/
def warnsWithName (fn : String) : Except PdfErr PdfResp → Bool
  | .ok resp => resp.status = "warning" && hasSub fn.data resp.message.data
  | .error _ => true

/-- Environment for the zero-page ingestion runs: collaborators healthy,
the PDF loader returns no pages, and the target collection does not yet
exist. -/
def envZeroPages : PdfEnv :=
  ⟨some "http://qdrant", some "key", [], false, false, false, .ok [], fun _ => [], false⟩

/-- Environment in which reading the uploaded file raises after the
temporary file has been created. -/
def envReadFail : PdfEnv :=
  ⟨some "http://qdrant", some "key", ["c"], false, true, false, .ok ["page text"], fun s => [s], false⟩

/-- Environment for a fully successful ingestion run. -/
def envHealthy : PdfEnv :=
  ⟨some "http://qdrant", some "key", ["c"], false, false, false, .ok ["page text"], fun s => [s], false⟩

/-!
Helper lemmas
-/

theorem startsWithList_append_self (s t : List Char) : startsWithList s (s ++ t) = true := by
  induction s with
  | nil => rfl
  | cons c cs ih => simp [startsWithList, ih]

theorem hasSub_sandwich (a s b : List Char) : hasSub s (a ++ s ++ b) = true := by
  induction a with
  | nil =>
    cases s with
    | nil =>
      cases b with
      | nil => rfl
      | cons c r => simp [hasSub, startsWithList]
    | cons c r =>
      have h3 : ([] : List Char) ++ (c :: r) ++ b = c :: (r ++ b) := by simp
      rw [h3]
      have h4 := startsWithList_append_self (c :: r) b
      rw [List.cons_append] at h4
      simp [hasSub, h4]
  | cons c r ih =>
    have h2 : (c :: r) ++ s ++ b = c :: (r ++ s ++ b) := by simp
    rw [h2]
    simp only [hasSub]
    rw [ih]
    simp

/-- The Stage 1 restructuring loop emits exactly the day keys it was
given, in order. -/
theorem restructureDays_keys (j : Json) (ks : List String)
    (out : List (String × DayEntry)) (h : restructureDays j ks = .ok out) :
    out.map Prod.fst = ks := by
  induction ks generalizing out with
  | nil =>
    simp only [restructureDays, Except.ok.injEq] at h
    subst h; rfl
  | cons dk rest ih =>
    simp only [restructureDays] at h
    cases hstep : dayLookupStep j dk with
    | error e => rw [hstep] at h; exact absurd h (by simp)
    | ok o =>
      rw [hstep] at h
      cases o with
      | none =>
        cases hrec : restructureDays j rest with
        | error e => rw [hrec] at h; exact absurd h (by simp)
        | ok out2 =>
          rw [hrec] at h
          simp only [Except.ok.injEq] at h
          subst h
          simp [ih out2 hrec]
      | some v =>
        cases v with
        | obj dd =>
          cases hrec : restructureDays j rest with
          | error e => rw [hrec] at h; exact absurd h (by simp)
          | ok out2 =>
            rw [hrec] at h
            simp only [Except.ok.injEq] at h
            subst h
            simp [ih out2 hrec]
        | null => exact absurd h (by simp)
        | bool b => exact absurd h (by simp)
        | num n => exact absurd h (by simp)
        | str s => exact absurd h (by simp)
        | arr xs => exact absurd h (by simp)

/-- If some listed day key is bound to a non-object value, the
restructuring loop raises. -/
theorem restructureDays_err_of_nonobj (fs : List (String × Json)) (ks : List String)
    (dk : String) (v : Json) (hmem : dk ∈ ks) (hv : lookupLast fs dk = some v)
    (hno : v.isObj = false) : ∃ e, restructureDays (Json.obj fs) ks = .error e := by
  induction ks with
  | nil => cases hmem
  | cons k rest ih =>
    by_cases hk : k = dk
    · subst hk
      cases v with
      | obj dd => simp [Json.isObj] at hno
      | null => exact ⟨.attributeError, by simp [restructureDays, dayLookupStep, hv]⟩
      | bool b => exact ⟨.attributeError, by simp [restructureDays, dayLookupStep, hv]⟩
      | num n => exact ⟨.attributeError, by simp [restructureDays, dayLookupStep, hv]⟩
      | str s => exact ⟨.attributeError, by simp [restructureDays, dayLookupStep, hv]⟩
      | arr xs => exact ⟨.attributeError, by simp [restructureDays, dayLookupStep, hv]⟩
    · have hmem2 : dk ∈ rest := by
        cases hmem with
        | head => exact absurd rfl hk
        | tail _ h2 => exact h2
      obtain ⟨e, he⟩ := ih hmem2
      cases hstep : dayLookupStep (Json.obj fs) k with
      | error e2 => exact ⟨e2, by simp [restructureDays, hstep]⟩
      | ok o =>
        cases o with
        | none => exact ⟨e, by simp [restructureDays, hstep, he]⟩
        | some w =>
          cases w with
          | obj dd => exact ⟨e, by simp [restructureDays, hstep, he]⟩
          | null => exact ⟨.attributeError, by simp [restructureDays, hstep]⟩
          | bool b => exact ⟨.attributeError, by simp [restructureDays, hstep]⟩
          | num n => exact ⟨.attributeError, by simp [restructureDays, hstep]⟩
          | str s => exact ⟨.attributeError, by simp [restructureDays, hstep]⟩
          | arr xs => exact ⟨.attributeError, by simp [restructureDays, hstep]⟩

/-!
Claim theorems
-/

/-- C9: `EmbeddingModel.encode` applied to an empty list of sentences
returns the empty list and runs no batch through the tokenizer or the
model (the recorded batch list is empty, so the batched encoding branch is
unreachable for empty input). -/
theorem encode_empty_skips_model {V : Type} (runBatch : List String → List V)
    (batchSize : Nat) : encodeModel runBatch [] batchSize = .ok ([], []) := rfl

/-- C3: whenever the strict JSON decode of the extracted diet-plan text
fails, `get_nutrition_recommendation` returns normally and the result
carries `note = "The diet plan could not be parsed as JSON and was
manually structured."`; whenever the decode succeeds, no returned result
carries a `note`. -/
theorem note_iff_decode_failure (text region : String) :
    (jsonParse text = none →
      (dietParse text region).isOk = true ∧
        resultNote (dietParse text region) = some noteMsg) ∧
    (jsonParse text ≠ none → resultNote (dietParse text region) = none) := by
  constructor
  · intro h
    simp [dietParse, h, Except.isOk, Except.toBool, resultNote]
  · intro h
    cases hj : jsonParse text with
    | none => exact absurd hj h
    | some j =>
      simp only [dietParse, hj]
      cases hr : restructureDays j dayKeys with
      | error e => simp [resultNote]
      | ok entries => simp [resultNote]

/-- Witness for C3: a decode failure on concrete input returns normally
with the exact note. -/
theorem note_iff_decode_failure_witness :
    (dietParse "hello" "kerala").isOk = true ∧
      resultNote (dietParse "hello" "kerala") = some noteMsg :=
  (note_iff_decode_failure "hello" "kerala").1 rfl

/-- C10: when the extracted text decodes as JSON and some listed day key
`dayN` is present with a non-object value, Stage 1 raises
(`AttributeError`/`TypeError`, neither caught by the
`except json.JSONDecodeError` clause) and the call does not return — the
Stage 2/3 fallback does not recover this case. -/
theorem nonobject_day_value_raises (text region : String) (fs : List (String × Json))
    (dk : String) (v : Json) (hp : jsonParse text = some (.obj fs)) (hdk : dk ∈ dayKeys)
    (hv : lookupLast fs dk = some v) (hno : v.isObj = false) :
    (dietParse text region).isOk = false := by
  obtain ⟨e, he⟩ := restructureDays_err_of_nonobj fs dayKeys dk v hdk hv hno
  simp [dietParse, hp, he, Except.isOk, Except.toBool]

/-- Witness for C10: `{"day1": 5}` decodes, and the call raises. -/
theorem nonobject_day_value_raises_witness :
    (dietParse (String.mk ('\x7b' :: "\"day1\": 5".data ++ ['\x7d'])) "r").isOk = false :=
  nonobject_day_value_raises (String.mk ('\x7b' :: "\"day1\": 5".data ++ ['\x7d'])) "r"
    [("day1", .num "5")] "day1" (.num "5") rfl (by simp [dayKeys]) rfl rfl

/-!
Structure of the Stage 2 output
-/

theorem mealSlot_isStr (label : String) (stops : List String) (content : List Char) :
    (mealSlot label stops content).isStr = true := by
  unfold mealSlot
  cases searchLabel label.data (stops.map String.data) content with
  | none => rfl
  | some g => rfl

theorem buildDay_allStr (c : List Char) : (buildDay c).allStr = true := by
  simp [DayEntry.allStr, buildDay, mealSlot_isStr]

theorem dictInsert_keys_mono (m : List (String × DayEntry)) (k k' : String) (v : DayEntry)
    (h : k' ∈ m.map Prod.fst) : k' ∈ (dictInsert m k v).map Prod.fst := by
  unfold dictInsert
  by_cases hany : m.any (fun kv => kv.1 = k) = true
  · rw [if_pos hany]
    obtain ⟨kv, hkv, hfst⟩ := List.mem_map.mp h
    refine List.mem_map.mpr ⟨if kv.1 = k then (k, v) else kv, List.mem_map.mpr ⟨kv, hkv, rfl⟩, ?_⟩
    by_cases hk : kv.1 = k
    · rw [if_pos hk]
      exact (hfst.symm.trans hk).symm
    · rw [if_neg hk]
      exact hfst
  · rw [if_neg hany]
    simp only [List.map_append, List.mem_append]
    exact Or.inl h

theorem dictInsert_key_mem (m : List (String × DayEntry)) (k : String) (v : DayEntry) :
    k ∈ (dictInsert m k v).map Prod.fst := by
  unfold dictInsert
  by_cases hany : m.any (fun kv => kv.1 = k) = true
  · rw [if_pos hany]
    obtain ⟨kv, hkv, hk⟩ := List.any_eq_true.mp hany
    refine List.mem_map.mpr ⟨(k, v), List.mem_map.mpr ⟨kv, hkv, ?_⟩, rfl⟩
    simp only [decide_eq_true_eq] at hk
    simp [hk]
  · rw [if_neg hany]
    simp

theorem dictInsert_src (m : List (String × DayEntry)) (k : String) (v : DayEntry)
    (e : String × DayEntry) (h : e ∈ dictInsert m k v) : e ∈ m ∨ e = (k, v) := by
  unfold dictInsert at h
  by_cases hany : m.any (fun kv => kv.1 = k) = true
  · rw [if_pos hany] at h
    obtain ⟨kv, hkv, he⟩ := List.mem_map.mp h
    by_cases hk : kv.1 = k
    · rw [if_pos hk] at he
      exact Or.inr he.symm
    · rw [if_neg hk] at he
      exact Or.inl (he ▸ hkv)
  · rw [if_neg hany] at h
    simp only [List.mem_append, List.mem_singleton] at h
    exact h

theorem applyDayMatches_keys_mono (l : List (String × List Char))
    (m : List (String × DayEntry)) (k' : String) (h : k' ∈ m.map Prod.fst) :
    k' ∈ (applyDayMatches m l).map Prod.fst := by
  induction l generalizing m with
  | nil => exact h
  | cons nm rest ih =>
    simp only [applyDayMatches, List.foldl_cons]
    exact ih _ (dictInsert_keys_mono m _ k' _ h)

theorem applyDayMatches_mem_found (l : List (String × List Char))
    (m : List (String × DayEntry)) (nm : String × List Char) (h : nm ∈ l) :
    ("day" ++ nm.1) ∈ (applyDayMatches m l).map Prod.fst := by
  induction l generalizing m with
  | nil => cases h
  | cons nm2 rest ih =>
    simp only [applyDayMatches, List.foldl_cons]
    cases h with
    | head =>
      exact applyDayMatches_keys_mono rest _ _ (dictInsert_key_mem m _ _)
    | tail _ h2 => exact ih (dictInsert m ("day" ++ nm2.1) (buildDay nm2.2)) h2

theorem applyDayMatches_src (l : List (String × List Char))
    (m : List (String × DayEntry)) (e : String × DayEntry)
    (h : e ∈ applyDayMatches m l) :
    e ∈ m ∨ ∃ nm ∈ l, e = ("day" ++ nm.1, buildDay nm.2) := by
  induction l generalizing m with
  | nil => exact Or.inl h
  | cons nm rest ih =>
    simp only [applyDayMatches, List.foldl_cons] at h
    cases ih _ h with
    | inl hin =>
      cases dictInsert_src m _ _ e hin with
      | inl h2 => exact Or.inl h2
      | inr h2 => exact Or.inr ⟨nm, List.mem_cons_self nm rest, h2⟩
    | inr h2 =>
      obtain ⟨nm2, hnm2, he⟩ := h2
      exact Or.inr ⟨nm2, List.mem_cons_of_mem nm hnm2, he⟩

/-- Every entry of the fallback output is the all-default day or the built
day dict of a block matched by the first (≡ third) or second pattern. -/
theorem stage2_src (cs : List Char) (e : String × DayEntry) (h : e ∈ stage2 cs) :
    e.2 = defaultDay ∨
      ∃ nm, (nm ∈ dayFindall true cs ∨ nm ∈ dayFindall false cs) ∧
        e = ("day" ++ nm.1, buildDay nm.2) := by
  unfold stage2 at h
  by_cases hm : (applyDayMatches (applyDayMatches (applyDayMatches [] (dayFindall true cs))
      (dayFindall false cs)) (dayFindall true cs)).isEmpty = true
  · simp only [hm, if_true] at h
    left
    simp only [defaultPlanEntries, List.mem_map] at h
    obtain ⟨k, _, he⟩ := h
    simp [← he]
  · simp only [hm, if_false] at h
    cases applyDayMatches_src _ _ _ h with
    | inl h2 =>
      cases applyDayMatches_src _ _ _ h2 with
      | inl h3 =>
        cases applyDayMatches_src _ _ _ h3 with
        | inl h4 => cases h4
        | inr h4 =>
          obtain ⟨nm, hnm, he⟩ := h4
          exact Or.inr ⟨nm, Or.inl hnm, he⟩
      | inr h3 =>
        obtain ⟨nm, hnm, he⟩ := h3
        exact Or.inr ⟨nm, Or.inr hnm, he⟩
    | inr h2 =>
      obtain ⟨nm, hnm, he⟩ := h2
      exact Or.inr ⟨nm, Or.inl hnm, he⟩

theorem stage2_ne_nil (cs : List Char) : stage2 cs ≠ [] := by
  unfold stage2
  by_cases hm : (applyDayMatches (applyDayMatches (applyDayMatches [] (dayFindall true cs))
      (dayFindall false cs)) (dayFindall true cs)).isEmpty = true
  · simp [hm, defaultPlanEntries, dayKeys]
  · simp only [hm, if_false]
    exact List.isEmpty_eq_false.mp (Bool.not_eq_true _ ▸ hm)

theorem stage2_allStr (cs : List Char) :
    (stage2 cs).all (fun e => e.2.allStr) = true := by
  refine List.all_eq_true.mpr ?_
  intro e he
  cases stage2_src cs e he with
  | inl h => simp only [h]; decide
  | inr h =>
    obtain ⟨nm, _, he2⟩ := h
    simp [he2, buildDay_allStr]

/-- C1 counterexample: on the LLM response `"Day 3: breakfast: rice"` the
strict decode fails and the fallback produces a diet plan whose key set is
`["day3"]` — not the seven keys `day1..day7` the claim promises for every
input. -/
theorem diet_plan_keys_counterexample :
    (dietParse "Day 3: breakfast: rice" "unknown").map
        (fun r => r.diet_plan.map Prod.fst) = .ok ["day3"] ∧
      (["day3"] : List String) ≠ dayKeys :=
  ⟨rfl, by decide⟩

/-- C1 (amended): whenever `get_nutrition_recommendation` returns, every
day record of the returned diet plan has exactly the five meal keys (by
construction of `DayEntry`); when the strict JSON decode succeeded the day
keys are exactly `day1..day7` (with values passed through `dict.get`,
hence not necessarily strings); when the decode failed the plan is
non-empty and every meal value is a string — but the key set is the set of
matched day blocks (or the seven defaults when nothing matched), not
necessarily `day1..day7`. -/
theorem diet_plan_shape (text region : String) (r : DietResult)
    (h : dietParse text region = .ok r) :
    (∀ j, jsonParse text = some j → r.diet_plan.map Prod.fst = dayKeys) ∧
    (jsonParse text = none →
      r.diet_plan ≠ [] ∧ (r.diet_plan.all (fun e => e.2.allStr)) = true) := by
  constructor
  · intro j hj
    simp only [dietParse, hj] at h
    cases hr : restructureDays j dayKeys with
    | error e => rw [hr] at h; exact absurd h (by simp)
    | ok entries =>
      rw [hr] at h
      simp only [Except.ok.injEq] at h
      subst h
      exact restructureDays_keys j dayKeys entries hr
  · intro hj
    simp only [dietParse, hj, Except.ok.injEq] at h
    subst h
    exact ⟨stage2_ne_nil text.data, stage2_allStr text.data⟩

/-- Witness for C1 (amended): on input `"x"` the decode fails, nothing
matches, and the returned default plan is non-empty with all-string
slots. -/
theorem diet_plan_shape_witness :
    ({ diet_plan := defaultPlanEntries, region := "unknown", note := some noteMsg } :
        DietResult).diet_plan ≠ [] ∧
      (({ diet_plan := defaultPlanEntries, region := "unknown", note := some noteMsg } :
        DietResult).diet_plan.all (fun e => e.2.allStr)) = true :=
  (diet_plan_shape "x" "unknown"
    { diet_plan := defaultPlanEntries, region := "unknown", note := some noteMsg } rfl).2 rfl

/-- C5 counterexample: on
`"Day 1: breakfast: eggs day2: lunch: rice"` the first pattern matches
only `day1`, yet the final output also contains `day2` from the second
pattern — the loop does not stop after the first variant that matches, and
later variants do contribute (`stage2StopFirst` is the spec-claimed
behaviour). -/
theorem stage2_stop_counterexample :
    (dietParse "Day 1: breakfast: eggs day2: lunch: rice" "r").map
        (fun r => r.diet_plan.map Prod.fst) = .ok ["day1", "day2"] ∧
      (stage2StopFirst "Day 1: breakfast: eggs day2: lunch: rice".data).map Prod.fst =
        ["day1"] :=
  ⟨rfl, rfl⟩

/-- C5 (amended): all three pattern variants are applied in order and each
variant that matches writes its day blocks into the output — every day
matched by the second variant is a key of the final output, and every
output entry is either a default day or the built record of some block
matched by the first (≡ third) or second variant, with unmatched meals
defaulting inside `buildDay`. -/
theorem stage2_all_variants (cs : List Char) :
    (∀ nm ∈ dayFindall false cs, ("day" ++ nm.1) ∈ (stage2 cs).map Prod.fst) ∧
    (∀ e ∈ stage2 cs, e.2 = defaultDay ∨
      ∃ nm, (nm ∈ dayFindall true cs ∨ nm ∈ dayFindall false cs) ∧
        e = ("day" ++ nm.1, buildDay nm.2)) := by
  constructor
  · intro nm hnm
    have h2 := applyDayMatches_mem_found (dayFindall false cs)
      (applyDayMatches [] (dayFindall true cs)) nm hnm
    have h3 := applyDayMatches_keys_mono (dayFindall true cs)
      (applyDayMatches (applyDayMatches [] (dayFindall true cs)) (dayFindall false cs))
      ("day" ++ nm.1) h2
    have hne : applyDayMatches (applyDayMatches (applyDayMatches [] (dayFindall true cs))
        (dayFindall false cs)) (dayFindall true cs) ≠ [] := by
      intro hnil
      rw [hnil] at h3
      cases h3
    unfold stage2
    simp only [List.isEmpty_eq_false.mpr hne, Bool.false_eq_true, if_false]
    exact h3
  · exact stage2_src cs

/-- Witness for C5 (amended): the `day2` block found by the second pattern
on the counterexample text is a key of the final output. -/
theorem stage2_all_variants_witness :
    ("day" ++ ("2", "lunch: rice".data).1) ∈
      (stage2 "Day 1: breakfast: eggs day2: lunch: rice".data).map Prod.fst :=
  (stage2_all_variants "Day 1: breakfast: eggs day2: lunch: rice".data).1
    ("2", "lunch: rice".data) (by decide)

/-- C7 counterexample: on a zero-page PDF with a not-yet-existing target
collection, `process_pdf` returns the warning — but it has already called
`create_collection` (lines 44–49 run before the PDF is loaded), so "no
writes to the vector store" is false. -/
theorem zero_pages_counterexample :
    (processPdf envZeroPages "scan.pdf" "health_schemes").result =
        .ok ⟨"warning", "No content found in scan.pdf.", none⟩ ∧
      PdfEvent.createCollection "health_schemes" ∈
        (processPdf envZeroPages "scan.pdf" "health_schemes").events :=
  ⟨rfl, by decide⟩

/-- C7 (amended): when the loader returns zero pages, `process_pdf` never
upserts, and whenever it returns it returns status `"warning"` with the
filename in the message — but `create_collection` may already have
happened when the collection was missing. -/
theorem zero_pages_no_upsert (env : PdfEnv) (fn cn : String)
    (h : env.loadResult = .ok []) :
    ((processPdf env fn cn).events.all (fun e => !e.isUpsert)) = true ∧
      warnsWithName fn (processPdf env fn cn).result = true := by
  have hmsg : hasSub fn.data ("No content found in " ++ fn ++ ".").data = true := by
    rw [String.data_append, String.data_append]
    exact hasSub_sandwich _ _ _
  have hwarn : warnsWithName fn
      (.ok ⟨"warning", "No content found in " ++ fn ++ ".", none⟩) = true := by
    simp only [warnsWithName, Bool.and_eq_true, decide_eq_true_eq]
    exact ⟨trivial, hmsg⟩
  simp only [processPdf, h]
  rw [if_pos (show (List.isEmpty ([] : List String)) = true from rfl)]
  split_ifs <;>
    refine ⟨by simp [PdfEvent.isUpsert], ?_⟩ <;>
    first
      | rfl
      | exact hwarn

/-- Witness for C7 (amended), at the zero-page environment. -/
theorem zero_pages_no_upsert_witness :
    ((processPdf envZeroPages "scan.pdf" "health_schemes").events.all
        (fun e => !e.isUpsert)) = true ∧
      warnsWithName "scan.pdf"
        (processPdf envZeroPages "scan.pdf" "health_schemes").result = true :=
  zero_pages_no_upsert envZeroPages "scan.pdf" "health_schemes" rfl

/-- C8 counterexample: when reading the uploaded file raises inside the
`with` block (after `NamedTemporaryFile(delete=False)` created the file,
before the `try`/`finally` is entered), the temporary file is left
behind — so deletion is not guaranteed on every exit path that reaches
temp-file creation. -/
theorem temp_file_counterexample :
    PdfEvent.tempCreated ∈ (processPdf envReadFail "f.pdf" "c").events ∧
      (processPdf envReadFail "f.pdf" "c").tempLeft = true :=
  ⟨by decide, rfl⟩

/-- C8 (amended): once the upload has been fully persisted to the
temporary file (reading and writing succeed), every exit path — success,
both warning returns, loader failure, upsert failure — deletes the
temporary file before returning or propagating. -/
theorem temp_file_deleted (env : PdfEnv) (fn cn : String)
    (h1 : env.readFails = false) (h2 : env.writeFails = false) :
    (processPdf env fn cn).tempLeft = false := by
  cases hl : env.loadResult with
  | error e =>
    simp only [processPdf, h1, h2, hl, Bool.false_eq_true, if_false]
    split_ifs <;> rfl
  | ok pages =>
    simp only [processPdf, h1, h2, hl, Bool.false_eq_true, if_false]
    split_ifs <;> rfl

/-- Witness for C8 (amended), on a fully successful run. -/
theorem temp_file_deleted_witness :
    (processPdf envHealthy "f.pdf" "c").tempLeft = false :=
  temp_file_deleted envHealthy "f.pdf" "c" rfl rfl

/-!
Region extraction
-/

theorem regionLoop_no_keyword (ks : List String) (q : List Char)
    (h : ∀ k ∈ ks, hasSub k.data q = false) : regionLoop ks q = "unknown" := by
  induction ks with
  | nil => rfl
  | cons k rest ih =>
    have hk := h k (List.mem_cons_self k rest)
    simp only [regionLoop, hk, Bool.false_eq_true, if_false]
    exact ih (fun k2 hk2 => h k2 (List.mem_cons_of_mem k hk2))

theorem regionLoop_spec (ks : List String) (q : List Char) :
    regionLoop ks q = "unknown" ∨
      ∃ k ∈ ks, hasSub k.data q = true ∧
        takeRegionWords (pyWords (pyStrip (((pySplit k.data q).get? 1).getD []))) =
          some (regionLoop ks q) := by
  induction ks with
  | nil => exact Or.inl rfl
  | cons k rest ih =>
    by_cases h1 : hasSub k.data q = true
    · by_cases h2 : 1 < (pySplit k.data q).length
      · cases hw : takeRegionWords (pyWords (pyStrip (((pySplit k.data q).get? 1).getD []))) with
        | some r =>
          right
          refine ⟨k, List.mem_cons_self k rest, h1, ?_⟩
          simp only [regionLoop, h1, if_true, h2, hw]
        | none =>
          have heq : regionLoop (k :: rest) q = regionLoop rest q := by
            simp only [regionLoop, h1, if_true, h2, if_true, hw]
          rw [heq]
          cases ih with
          | inl h3 => exact Or.inl h3
          | inr h3 =>
            obtain ⟨k2, hk2, h4, h5⟩ := h3
            exact Or.inr ⟨k2, List.mem_cons_of_mem k hk2, h4, h5⟩
      · have heq : regionLoop (k :: rest) q = regionLoop rest q := by
          simp only [regionLoop, h1, if_true, h2, if_false]
        rw [heq]
        cases ih with
        | inl h3 => exact Or.inl h3
        | inr h3 =>
          obtain ⟨k2, hk2, h4, h5⟩ := h3
          exact Or.inr ⟨k2, List.mem_cons_of_mem k hk2, h4, h5⟩
    · have heq : regionLoop (k :: rest) q = regionLoop rest q := by
        simp only [regionLoop]
        rw [if_neg h1]
      rw [heq]
      cases ih with
      | inl h3 => exact Or.inl h3
      | inr h3 =>
        obtain ⟨k2, hk2, h4, h5⟩ := h3
        exact Or.inr ⟨k2, List.mem_cons_of_mem k hk2, h4, h5⟩

/-- C6: region extraction.  (i) When no keyword of the fixed list occurs
in the case-folded query the region is `"unknown"`.  (ii) When the result
is not `"unknown"`, it is the next one-or-two whitespace tokens of the
(stripped) remainder `parts[1]` obtained by splitting the lowered query at
one of the keywords.  (iii) A query containing `"from Kerala"` (with
nothing after it) yields `"kerala"`. -/
theorem region_extraction :
    (∀ q : String, (∀ k ∈ regionKeywords, hasSub k.data (q.data.map Char.toLower) = false) →
      regionFromQuery q = "unknown") ∧
    (∀ q : String, regionFromQuery q ≠ "unknown" →
      ∃ k ∈ regionKeywords, hasSub k.data (q.data.map Char.toLower) = true ∧
        takeRegionWords (pyWords (pyStrip
          (((pySplit k.data (q.data.map Char.toLower)).get? 1).getD []))) =
          some (regionFromQuery q)) ∧
    regionFromQuery "She is 24 weeks pregnant, from Kerala" = "kerala" := by
  refine ⟨?_, ?_, rfl⟩
  · intro q h
    exact regionLoop_no_keyword regionKeywords (q.data.map Char.toLower) h
  · intro q h
    cases regionLoop_spec regionKeywords (q.data.map Char.toLower) with
    | inl h2 => exact absurd h2 h
    | inr h2 => exact h2

/-- Witness for C6: a keyword-free query maps to `"unknown"`. -/
theorem region_extraction_witness : regionFromQuery "hello there" = "unknown" :=
  region_extraction.1 "hello there" (by decide)

/-!
Scheme-record parsing
-/

theorem schemeFields_keys (content : String) :
    (schemeFields content).map Prod.fst =
      ["state", "description", "eligibility", "how_to_apply", "benefits",
       "documents_required", "contact_info"] := rfl

/-- C2 counterexample: on the empty content every labelled field extracts
empty, yet `raw_content` is absent from the output (its value, the empty
content itself, is dropped by the final empty-value filter) — refuting the
claimed "if and only if". -/
theorem raw_content_counterexample :
    ((schemeFields "").all (fun kv => kv.2 = "")) = true ∧
      "raw_content" ∉ (parseHealthScheme "").map Prod.fst :=
  ⟨by decide, by decide⟩

/-- C2 (amended): `raw_content` is present iff every labelled field
extracted empty *and* the content is itself non-empty; and `raw_content`
never co-occurs with any labelled field in the output. -/
theorem raw_content_iff (content : String) :
    ("raw_content" ∈ (parseHealthScheme content).map Prod.fst ↔
      ((schemeFields content).all (fun kv => kv.2 = "")) = true ∧ content ≠ "") ∧
    (∀ kl ∈ schemeLabels, kl.1 ∈ (parseHealthScheme content).map Prod.fst →
      "raw_content" ∉ (parseHealthScheme content).map Prod.fst) := by
  have hfk : ∀ kv ∈ schemeFields content, kv.1 ≠ "raw_content" := by
    intro kv hkv h1
    have h2 : kv.1 ∈ (schemeFields content).map Prod.fst := List.mem_map.mpr ⟨kv, hkv, rfl⟩
    rw [schemeFields_keys, h1] at h2
    exact absurd h2 (by decide)
  have hlab : ∀ kl ∈ schemeLabels, kl.1 ≠ "scheme_name" ∧ kl.1 ≠ "raw_content" := by decide
  by_cases hA : ((schemeFields content).all (fun kv => kv.2 = "")) = true
  · have hout : parseHealthScheme content =
        List.filter (fun kv => kv.2 ≠ "")
          (("scheme_name", schemeName content) :: schemeFields content ++
            [("raw_content", content)]) := by
      simp only [parseHealthScheme]
      rw [if_pos hA]
    rw [hout]
    constructor
    · constructor
      · intro hmem
        refine ⟨hA, ?_⟩
        obtain ⟨kv, hkvf, hkey⟩ := List.mem_map.mp hmem
        obtain ⟨hkvl, hne⟩ := List.mem_filter.mp hkvf
        have hne2 : kv.2 ≠ "" := of_decide_eq_true hne
        rcases List.mem_cons.mp hkvl with hname | htail
        · rw [hname] at hkey
          have h5 : ("scheme_name" : String) = "raw_content" := hkey
          exact absurd h5 (by decide)
        · rcases List.mem_append.mp htail with hfield | hraw
          · have h3 := List.all_eq_true.mp hA kv hfield
            exact absurd (of_decide_eq_true h3) hne2
          · have h4 := List.mem_singleton.mp hraw
            rw [h4] at hne2
            exact hne2
      · rintro ⟨-, hcne⟩
        refine List.mem_map.mpr ⟨("raw_content", content), ?_, rfl⟩
        refine List.mem_filter.mpr ⟨?_, decide_eq_true hcne⟩
        exact List.mem_cons_of_mem _ (List.mem_append.mpr (Or.inr (List.mem_singleton.mpr rfl)))
    · intro kl hkl hfmem hraw
      obtain ⟨kv, hkvf, hkey⟩ := List.mem_map.mp hfmem
      obtain ⟨hkvl, hne⟩ := List.mem_filter.mp hkvf
      have hne2 : kv.2 ≠ "" := of_decide_eq_true hne
      rcases List.mem_cons.mp hkvl with hname | htail
      · rw [hname] at hkey
        exact absurd hkey.symm (hlab kl hkl).1
      · rcases List.mem_append.mp htail with hfield | hraw2
        · have h3 := List.all_eq_true.mp hA kv hfield
          exact absurd (of_decide_eq_true h3) hne2
        · have h4 := List.mem_singleton.mp hraw2
          rw [h4] at hkey
          exact absurd hkey.symm (hlab kl hkl).2
  · have hout : parseHealthScheme content =
        List.filter (fun kv => kv.2 ≠ "")
          (("scheme_name", schemeName content) :: schemeFields content) := by
      simp only [parseHealthScheme]
      rw [if_neg hA, List.append_nil]
    rw [hout]
    have hnoraw : "raw_content" ∉
        (List.filter (fun kv => kv.2 ≠ "")
          (("scheme_name", schemeName content) :: schemeFields content)).map Prod.fst := by
      intro hmem
      obtain ⟨kv, hkvf, hkey⟩ := List.mem_map.mp hmem
      obtain ⟨hkvl, hne⟩ := List.mem_filter.mp hkvf
      rcases List.mem_cons.mp hkvl with hname | hfield
      · rw [hname] at hkey
        have h5 : ("scheme_name" : String) = "raw_content" := hkey
        exact absurd h5 (by decide)
      · exact hfk kv hfield hkey
    constructor
    · constructor
      · intro hmem
        exact absurd hmem hnoraw
      · rintro ⟨h1, -⟩
        exact absurd h1 hA
    · intro kl hkl hfmem
      exact hnoraw

/-- Witness for C2 (amended): with a recognized non-empty `Benefits:`
label, `raw_content` is absent. -/
theorem raw_content_iff_witness :
    "raw_content" ∉ (parseHealthScheme "Benefits: Cash incentive").map Prod.fst :=
  (raw_content_iff "Benefits: Cash incentive").2 ("benefits", "Benefits:") (by decide)
    (by decide)

/-!
Stage 1 round trip: the string layer
-/

theorem hexVal_hexDig : ∀ n, n < 16 → hexVal (hexDig n) = some n := by decide

theorem strBody_hex_step (need acc : Nat) (c : Char) (d : Nat) (rest : List Char)
    (hv : hexVal c = some d) (hneed : 1 < need) :
    strBody (.hex need acc) (c :: rest) = strBody (.hex (need - 1) (acc * 16 + d)) rest := by
  simp only [strBody, hv]
  rw [if_neg (by omega : ¬ need ≤ 1)]

theorem strBody_hex_last (acc : Nat) (c : Char) (d : Nat) (rest : List Char)
    (hv : hexVal c = some d) (hval : acc * 16 + d < 0xD800) :
    strBody (.hex 1 acc) (c :: rest) =
      (strBody .norm rest).map (fun p => (Char.ofNat (acc * 16 + d) :: p.1, p.2)) := by
  simp only [strBody, hv]
  rw [if_pos (by omega : (1 : Nat) ≤ 1)]
  have hb : ¬((decide (0xD800 ≤ acc * 16 + d) && decide (acc * 16 + d ≤ 0xDFFF)) = true) := by
    simp only [Bool.and_eq_true, decide_eq_true_eq]
    omega
  rw [if_neg hb]

/-- Scanning the escaped form of `s` recovers `s` and stops at the closing
quote. -/
theorem strBody_escChars (s rest : List Char) :
    strBody .norm (escChars s ++ '"' :: rest) = some (s, rest) := by
  induction s with
  | nil => rfl
  | cons c cs ih =>
    have hcons : escChars (c :: cs) ++ '"' :: rest =
        escChar c ++ (escChars cs ++ '"' :: rest) := by
      simp [escChars]
    rw [hcons]
    by_cases h1 : c = '"'
    · subst h1
      show (strBody .norm (escChars cs ++ '"' :: rest)).map
        (fun p => ('"' :: p.1, p.2)) = some ('"' :: cs, rest)
      rw [ih]
      rfl
    by_cases h2 : c = '\\'
    · subst h2
      have he : escChar '\\' ++ (escChars cs ++ '"' :: rest) =
          '\\' :: '\\' :: (escChars cs ++ '"' :: rest) := rfl
      rw [he]
      show (strBody .norm (escChars cs ++ '"' :: rest)).map
        (fun p => ('\\' :: p.1, p.2)) = some ('\\' :: cs, rest)
      rw [ih]
      rfl
    by_cases h3 : c = '\n'
    · subst h3
      show (strBody .norm (escChars cs ++ '"' :: rest)).map
        (fun p => ('\n' :: p.1, p.2)) = some ('\n' :: cs, rest)
      rw [ih]
      rfl
    by_cases h4 : c = '\r'
    · subst h4
      show (strBody .norm (escChars cs ++ '"' :: rest)).map
        (fun p => ('\r' :: p.1, p.2)) = some ('\r' :: cs, rest)
      rw [ih]
      rfl
    by_cases h5 : c = '\t'
    · subst h5
      show (strBody .norm (escChars cs ++ '"' :: rest)).map
        (fun p => ('\t' :: p.1, p.2)) = some ('\t' :: cs, rest)
      rw [ih]
      rfl
    by_cases h6 : c.toNat = 8
    · have hc : c = '\x08' := by
        rw [← Char.ofNat_toNat c, h6]
      subst hc
      show (strBody .norm (escChars cs ++ '"' :: rest)).map
        (fun p => ('\x08' :: p.1, p.2)) = some ('\x08' :: cs, rest)
      rw [ih]
      rfl
    by_cases h7 : c.toNat = 12
    · have hc : c = '\x0c' := by
        rw [← Char.ofNat_toNat c, h7]
      subst hc
      show (strBody .norm (escChars cs ++ '"' :: rest)).map
        (fun p => ('\x0c' :: p.1, p.2)) = some ('\x0c' :: cs, rest)
      rw [ih]
      rfl
    by_cases h8 : c.toNat < 32
    · have he : escChar c = ['\\', 'u', '0', '0', hexDig (c.toNat / 16), hexDig (c.toNat % 16)] := by
        unfold escChar
        rw [if_neg h1, if_neg h2, if_neg h3, if_neg h4, if_neg h5, if_neg h6, if_neg h7,
          if_pos h8]
      rw [he]
      show strBody (.hex 2 0) (hexDig (c.toNat / 16) :: hexDig (c.toNat % 16) ::
        (escChars cs ++ '"' :: rest)) = some (c :: cs, rest)
      rw [strBody_hex_step 2 0 _ _ _ (hexVal_hexDig _ (by omega)) (by omega)]
      rw [strBody_hex_last _ _ _ _ (hexVal_hexDig _ (by omega)) (by omega)]
      rw [ih]
      have hn : (0 * 16 + c.toNat / 16) * 16 + c.toNat % 16 = c.toNat := by omega
      rw [hn, Char.ofNat_toNat]
      rfl
    · have he : escChar c = [c] := by
        unfold escChar
        rw [if_neg h1, if_neg h2, if_neg h3, if_neg h4, if_neg h5, if_neg h6, if_neg h7,
          if_neg h8]
      rw [he]
      have hstep : strBody .norm (c :: (escChars cs ++ '"' :: rest)) =
          (strBody .norm (escChars cs ++ '"' :: rest)).map (fun p => (c :: p.1, p.2)) := by
        simp only [strBody]
        rw [if_neg h1, if_neg h2, if_neg h8]
      rw [show [c] ++ (escChars cs ++ '"' :: rest) = c :: (escChars cs ++ '"' :: rest) from rfl]
      rw [hstep, ih]
      rfl

/-!
Stage 1 round trip: the object layers
-/

theorem skipWs_quote (T : List Char) : skipWs ('"' :: T) = '"' :: T := rfl

theorem skipWs_colon (T : List Char) : skipWs (':' :: T) = ':' :: T := rfl

theorem skipWs_comma (T : List Char) : skipWs (',' :: T) = ',' :: T := rfl

theorem skipWs_rbrace (T : List Char) : skipWs ('\x7d' :: T) = '\x7d' :: T := rfl

theorem mk_data_eq (s : String) : String.mk s.data = s := rfl

theorem parseVal_space (f : Nat) (cs : List Char) :
    parseVal f (' ' :: cs) = parseVal f cs := by
  cases f with
  | zero => rfl
  | succ f2 =>
    have h : skipWs (' ' :: cs) = skipWs cs := rfl
    simp only [parseVal, h]

theorem parseMembers_space (f : Nat) (cs : List Char) (acc : List (String × Json)) :
    parseMembers f (' ' :: cs) acc = parseMembers f cs acc := by
  cases f with
  | zero => rfl
  | succ f2 =>
    have h : skipWs (' ' :: cs) = skipWs cs := rfl
    simp only [parseMembers, h]

theorem parseVal_serStr (f : Nat) (s : String) (rest : List Char) :
    parseVal (f + 1) ('"' :: (escChars s.data ++ '"' :: rest)) = some (.str s, rest) := by
  have h0 : parseVal (f + 1) ('"' :: (escChars s.data ++ '"' :: rest)) =
      (strBody .norm (escChars s.data ++ '"' :: rest)).map
        (fun p => (Json.str (String.mk p.1), p.2)) := rfl
  rw [h0, strBody_escChars]
  rfl

/-- Parsing the members of a serialized flat string object. -/
theorem parseMembers_flat (fields : List (String × String)) :
    ∀ (f : Nat) (acc : List (String × Json)) (rest : List Char), fields ≠ [] →
      fields.length + 1 ≤ f →
      parseMembers f (serFieldsSep fields ++ '\x7d' :: rest) acc =
        some (.obj (acc ++ fields.map (fun kv => (kv.1, .str kv.2))), rest) := by
  induction fields with
  | nil => intro f acc rest hne _; exact absurd rfl hne
  | cons kv fs ih =>
    intro f acc rest hne hf
    obtain ⟨f2, rfl⟩ : ∃ f2, f = f2 + 1 := ⟨f - 1, by omega⟩
    cases fs with
    | nil =>
      have hser : serFieldsSep [kv] ++ '\x7d' :: rest =
          '"' :: (escChars kv.1.data ++ '"' :: ':' :: ' ' ::
            ('"' :: (escChars kv.2.data ++ '"' :: '\x7d' :: rest))) := by
        simp [serFieldsSep, serFieldEntry, serStr]
      have hf1 : 1 ≤ f2 := by
        simp only [List.length_cons] at hf
        omega
      have hval : parseVal f2 (' ' :: ('"' :: (escChars kv.2.data ++ '"' :: '\x7d' :: rest))) =
          some (.str kv.2, '\x7d' :: rest) := by
        obtain ⟨f3, rfl⟩ : ∃ f3, f2 = f3 + 1 := ⟨f2 - 1, by omega⟩
        rw [parseVal_space, parseVal_serStr]
      rw [hser]
      simp only [parseMembers, skipWs_quote, strBody_escChars, skipWs_colon, hval,
        skipWs_rbrace, mk_data_eq, List.map_cons, List.map_nil]
    | cons kv2 fs2 =>
      have hser : serFieldsSep (kv :: kv2 :: fs2) ++ '\x7d' :: rest =
          '"' :: (escChars kv.1.data ++ '"' :: ':' :: ' ' ::
            ('"' :: (escChars kv.2.data ++ '"' :: ',' :: ' ' ::
              (serFieldsSep (kv2 :: fs2) ++ '\x7d' :: rest)))) := by
        simp [serFieldsSep, serFieldEntry, serStr]
      have hf1 : 1 ≤ f2 := by
        simp only [List.length_cons] at hf
        omega
      have hval : parseVal f2 (' ' :: ('"' :: (escChars kv.2.data ++ '"' :: ',' :: ' ' ::
          (serFieldsSep (kv2 :: fs2) ++ '\x7d' :: rest)))) =
          some (.str kv.2, ',' :: ' ' :: (serFieldsSep (kv2 :: fs2) ++ '\x7d' :: rest)) := by
        obtain ⟨f3, rfl⟩ : ∃ f3, f2 = f3 + 1 := ⟨f2 - 1, by omega⟩
        rw [parseVal_space, parseVal_serStr]
      have hrec : parseMembers f2 (' ' :: (serFieldsSep (kv2 :: fs2) ++ '\x7d' :: rest))
          (acc ++ [(kv.1, Json.str kv.2)]) =
          some (.obj ((acc ++ [(kv.1, Json.str kv.2)]) ++
            (kv2 :: fs2).map (fun kv3 => (kv3.1, .str kv3.2))), rest) := by
        rw [parseMembers_space]
        exact ih f2 (acc ++ [(kv.1, Json.str kv.2)]) rest (by simp) (by simp at hf ⊢; omega)
      rw [hser]
      simp only [parseMembers, skipWs_quote, strBody_escChars, skipWs_colon, hval,
        skipWs_comma, mk_data_eq, hrec, List.map_cons, List.append_assoc,
        List.cons_append, List.nil_append]

theorem parseObjBody_quote (f : Nat) (T : List Char) :
    parseObjBody (f + 1) ('"' :: T) = parseMembers f ('"' :: T) [] := rfl

theorem serFieldsSep_cons_quote (kv : String × String) (fs : List (String × String))
    (Y : List Char) : ∃ T, serFieldsSep (kv :: fs) ++ Y = '"' :: T := by
  cases fs with
  | nil =>
    exact ⟨escChars kv.1.data ++ '"' :: ':' :: ' ' :: ('"' :: (escChars kv.2.data ++ '"' :: Y)),
      by simp [serFieldsSep, serFieldEntry, serStr]⟩
  | cons kv2 fs2 =>
    exact ⟨escChars kv.1.data ++ '"' :: ':' :: ' ' :: ('"' :: (escChars kv.2.data ++ '"' ::
      ',' :: ' ' :: (serFieldsSep (kv2 :: fs2) ++ Y))),
      by simp [serFieldsSep, serFieldEntry, serStr]⟩

theorem serDaysSep_cons_quote (kv : String × DayMeals) (ds : List (String × DayMeals))
    (Y : List Char) : ∃ T, serDaysSep (kv :: ds) ++ Y = '"' :: T := by
  cases ds with
  | nil =>
    exact ⟨escChars kv.1.data ++ '"' :: ':' :: ' ' :: (serFlatObj (mealFields kv.2) ++ Y),
      by simp [serDaysSep, serDayEntry, serStr]⟩
  | cons kv2 ds2 =>
    exact ⟨escChars kv.1.data ++ '"' :: ':' :: ' ' :: (serFlatObj (mealFields kv.2) ++
      ',' :: ' ' :: (serDaysSep (kv2 :: ds2) ++ Y)),
      by simp [serDaysSep, serDayEntry, serStr]⟩

/-- Parsing a serialized flat string object as a value. -/
theorem parseVal_flatObj (f : Nat) (fields : List (String × String)) (rest : List Char)
    (hne : fields ≠ []) (hf : fields.length + 3 ≤ f) :
    parseVal f (serFlatObj fields ++ rest) =
      some (.obj (fields.map (fun kv => (kv.1, .str kv.2))), rest) := by
  obtain ⟨f1, rfl⟩ : ∃ f1, f = f1 + 1 := ⟨f - 1, by omega⟩
  obtain ⟨f2, rfl⟩ : ∃ f2, f1 = f2 + 1 := ⟨f1 - 1, by omega⟩
  cases fields with
  | nil => exact absurd rfl hne
  | cons kv fs =>
    have h1 : parseVal (f2 + 1 + 1) (serFlatObj (kv :: fs) ++ rest) =
        parseObjBody (f2 + 1) (serFieldsSep (kv :: fs) ++ '\x7d' :: rest) := by
      have hsh : serFlatObj (kv :: fs) ++ rest =
          '\x7b' :: (serFieldsSep (kv :: fs) ++ '\x7d' :: rest) := by
        simp [serFlatObj]
      rw [hsh]
      rfl
    obtain ⟨T, hT⟩ := serFieldsSep_cons_quote kv fs ('\x7d' :: rest)
    rw [h1, hT, parseObjBody_quote, ← hT]
    have := parseMembers_flat (kv :: fs) f2 [] rest (by simp)
      (by simp only [List.length_cons] at hf ⊢; omega)
    simpa using this

/-- Parsing the members of the serialized day list. -/
theorem parseMembers_days (days : List (String × DayMeals)) :
    ∀ (f : Nat) (acc : List (String × Json)) (rest : List Char), days ≠ [] →
      days.length + 9 ≤ f →
      parseMembers f (serDaysSep days ++ '\x7d' :: rest) acc =
        some (.obj (acc ++ days.map (fun kv => (kv.1, mealsJson kv.2))), rest) := by
  induction days with
  | nil => intro f acc rest hne _; exact absurd rfl hne
  | cons kv ds ih =>
    intro f acc rest hne hf
    obtain ⟨f2, rfl⟩ : ∃ f2, f = f2 + 1 := ⟨f - 1, by omega⟩
    have hf1 : 9 ≤ f2 := by
      simp only [List.length_cons] at hf
      omega
    cases ds with
    | nil =>
      have hser : serDaysSep [kv] ++ '\x7d' :: rest =
          '"' :: (escChars kv.1.data ++ '"' :: ':' :: ' ' ::
            (serFlatObj (mealFields kv.2) ++ '\x7d' :: rest)) := by
        simp [serDaysSep, serDayEntry, serStr]
      have hval : parseVal f2 (' ' :: (serFlatObj (mealFields kv.2) ++ '\x7d' :: rest)) =
          some (mealsJson kv.2, '\x7d' :: rest) := by
        rw [parseVal_space]
        have h2 := parseVal_flatObj f2 (mealFields kv.2) ('\x7d' :: rest)
          (by simp [mealFields])
          (by simp only [mealFields, List.length_cons, List.length_nil]; omega)
        simpa [mealsJson] using h2
      rw [hser]
      simp only [parseMembers, skipWs_quote, strBody_escChars, skipWs_colon, hval,
        skipWs_rbrace, mk_data_eq, List.map_cons, List.map_nil]
    | cons kv2 ds2 =>
      have hser : serDaysSep (kv :: kv2 :: ds2) ++ '\x7d' :: rest =
          '"' :: (escChars kv.1.data ++ '"' :: ':' :: ' ' ::
            (serFlatObj (mealFields kv.2) ++ ',' :: ' ' ::
              (serDaysSep (kv2 :: ds2) ++ '\x7d' :: rest))) := by
        simp [serDaysSep, serDayEntry, serStr]
      have hval : parseVal f2 (' ' :: (serFlatObj (mealFields kv.2) ++ ',' :: ' ' ::
          (serDaysSep (kv2 :: ds2) ++ '\x7d' :: rest))) =
          some (mealsJson kv.2, ',' :: ' ' :: (serDaysSep (kv2 :: ds2) ++ '\x7d' :: rest)) := by
        rw [parseVal_space]
        have h2 := parseVal_flatObj f2 (mealFields kv.2)
          (',' :: ' ' :: (serDaysSep (kv2 :: ds2) ++ '\x7d' :: rest))
          (by simp [mealFields])
          (by simp only [mealFields, List.length_cons, List.length_nil]; omega)
        simpa [mealsJson] using h2
      have hrec : parseMembers f2 (' ' :: (serDaysSep (kv2 :: ds2) ++ '\x7d' :: rest))
          (acc ++ [(kv.1, mealsJson kv.2)]) =
          some (.obj ((acc ++ [(kv.1, mealsJson kv.2)]) ++
            (kv2 :: ds2).map (fun kv3 => (kv3.1, mealsJson kv3.2))), rest) := by
        rw [parseMembers_space]
        exact ih f2 (acc ++ [(kv.1, mealsJson kv.2)]) rest (by simp)
          (by simp only [List.length_cons] at hf ⊢; omega)
      rw [hser]
      simp only [parseMembers, skipWs_quote, strBody_escChars, skipWs_colon, hval,
        skipWs_comma, mk_data_eq, hrec, List.map_cons, List.append_assoc,
        List.cons_append, List.nil_append]

/-- Parsing the full serialized plan. -/
theorem parseVal_serPlan (p : WeekPlan) (f : Nat) (hf : 18 ≤ f) :
    parseVal f (serPlan p) = some (planJson p, []) := by
  obtain ⟨f1, rfl⟩ : ∃ f1, f = f1 + 1 := ⟨f - 1, by omega⟩
  obtain ⟨f2, rfl⟩ : ∃ f2, f1 = f2 + 1 := ⟨f1 - 1, by omega⟩
  have h1 : parseVal (f2 + 1 + 1) (serPlan p) =
      parseObjBody (f2 + 1) (serDaysSep (planDays p) ++ '\x7d' :: []) := rfl
  have hpd : planDays p = ("day1", p.day1) :: [("day2", p.day2), ("day3", p.day3),
      ("day4", p.day4), ("day5", p.day5), ("day6", p.day6), ("day7", p.day7)] := rfl
  obtain ⟨T, hT⟩ := serDaysSep_cons_quote ("day1", p.day1) [("day2", p.day2), ("day3", p.day3),
    ("day4", p.day4), ("day5", p.day5), ("day6", p.day6), ("day7", p.day7)] ('\x7d' :: [])
  rw [h1, hpd, hT, parseObjBody_quote, ← hT, ← hpd]
  have h2 := parseMembers_days (planDays p) f2 [] [] (by simp [planDays])
    (by simp only [planDays, List.length_cons, List.length_nil]; omega)
  simpa [planJson] using h2

/-- The strict decode of a serialized schema-valid plan succeeds and
recovers the plan's JSON document. -/
theorem jsonParse_serializePlan (p : WeekPlan) :
    jsonParse (serializePlan p) = some (planJson p) := by
  have h6 : 6 ≤ (serDayEntry ("day1", p.day1)).length := by
    simp [serDayEntry, serStr, serFlatObj]
    omega
  have h3 : serDaysSep (planDays p) =
      serDayEntry ("day1", p.day1) ++ ',' :: ' ' ::
        serDaysSep [("day2", p.day2), ("day3", p.day3), ("day4", p.day4),
          ("day5", p.day5), ("day6", p.day6), ("day7", p.day7)] := rfl
  have h5 := congrArg List.length h3
  simp only [List.length_append, List.length_cons] at h5
  have h4 : (serializePlan p).length = (serDaysSep (planDays p)).length + 2 := by
    simp [serializePlan, serPlan]
  have hlen : 18 ≤ 3 * (serializePlan p).length + 3 := by omega
  unfold jsonParse
  rw [show (serializePlan p).data = serPlan p from rfl]
  rw [parseVal_serPlan p _ hlen]
  rfl

/-- Stage 1 rebuilds exactly the entries of a schema-valid plan. -/
theorem restructureDays_planJson (p : WeekPlan) :
    restructureDays (planJson p) dayKeys = .ok (planEntries p) := rfl

/-- C4: round-trip idempotence of Stage 1 — feeding the JSON serialization
of any schema-valid diet plan back through the strict-JSON stage of
`get_nutrition_recommendation` succeeds and reproduces the plan unchanged
(no `note`, region passed through). -/
theorem stage1_roundtrip (p : WeekPlan) (region : String) :
    dietParse (serializePlan p) region =
      .ok { diet_plan := planEntries p, region := region, note := none } := by
  simp only [dietParse, jsonParse_serializePlan, restructureDays_planJson]

end Asha
